import Mathlib

/-!
Verification of the bounded-buffer extraction routines of `src/ssl_utils.c`
(haproxy SSL utility module).  The C code is shallowly embedded: haproxy's
`struct buffer { size_t size; char *area; size_t data; }` becomes a `Buffer`
with an unbounded byte store (`area : Nat → Nat`), so that out-of-capacity
stores remain observable; `size_t` arithmetic is modelled modulo `2^64`;
fallible extraction routines return their C `int` tri-state together with the
updated buffer.
-/

namespace SslUtils

/-- The modulus `2^64` of `size_t` arithmetic on the 64-bit platforms haproxy
targets. -/
def W : Nat := 2 ^ 64

/-- Wrapping `size_t` subtraction `a - b` (two's complement wraparound), exact for
operands below `2^64`. -/
def usub (a b : Nat) : Nat := (a + (W - b % W)) % W

/-- haproxy's `struct buffer`: a capacity (`size`), a current length (`data`)
and the byte store (`area`).  The store is a total map so that writes past the
capacity are still recorded and can be reasoned about. -/
structure Buffer where
  size : Nat
  data : Nat
  area : Nat → Nat

/-- A single byte store, as performed by an assignment through a `char *`. -/
def upd (f : Nat → Nat) (i v : Nat) : Nat → Nat :=
  fun j => if j = i then v else f j

/-- Like `memcpy(area + off, l, l.length)`: store the bytes of `l` at offsets
`off, off+1, ...`. -/
def writeBytes : (Nat → Nat) → Nat → List Nat → (Nat → Nat)
  | area, _, [] => area
  | area, off, v :: rest => writeBytes (upd area off v) (off + 1) rest

/-- Read `n` bytes starting at offset `off`. -/
def readFrom (area : Nat → Nat) : Nat → Nat → List Nat
  | _, 0 => []
  | off, n + 1 => area off :: readFrom area (off + 1) n

/-- The portion of a buffer a caller consumes: its first `data` bytes. -/
def readArea (b : Buffer) : List Nat := readFrom b.area 0 b.data

theorem writeBytes_lt : ∀ (l : List Nat) (area : Nat → Nat) (off i : Nat),
    i < off → writeBytes area off l i = area i
  | [], _, _, _, _ => rfl
  | v :: rest, area, off, i, h => by
    have h' : i < off + 1 := Nat.lt_succ_of_lt h
    have hne : i ≠ off := Nat.ne_of_lt h
    simp [writeBytes, writeBytes_lt rest _ (off + 1) i h', upd, hne]

theorem writeBytes_ge : ∀ (l : List Nat) (area : Nat → Nat) (off i : Nat),
    off + l.length ≤ i → writeBytes area off l i = area i
  | [], _, _, _, _ => rfl
  | v :: rest, area, off, i, h => by
    have h' : (off + 1) + rest.length ≤ i := by
      simp only [List.length_cons] at h; omega
    have hne : i ≠ off := by omega
    simp [writeBytes, writeBytes_ge rest _ (off + 1) i h', upd, hne]

theorem writeBytes_append : ∀ (xs ys : List Nat) (area : Nat → Nat) (off : Nat),
    writeBytes area off (xs ++ ys) = writeBytes (writeBytes area off xs) (off + xs.length) ys
  | [], ys, area, off => by simp [writeBytes]
  | v :: rest, ys, area, off => by
    have ih := writeBytes_append rest ys (upd area off v) (off + 1)
    have harith : off + (rest.length + 1) = off + 1 + rest.length := by omega
    simp only [List.cons_append, writeBytes, List.length_cons, harith]
    exact ih

theorem readFrom_writeBytes : ∀ (l : List Nat) (area : Nat → Nat) (off : Nat),
    readFrom (writeBytes area off l) off l.length = l
  | [], _, _ => rfl
  | v :: rest, area, off => by
    simp only [List.length_cons, readFrom, writeBytes]
    have h1 : writeBytes (upd area off v) (off + 1) rest off = v := by
      rw [writeBytes_lt rest _ (off + 1) off (Nat.lt_succ_self off)]
      simp [upd]
    rw [h1, readFrom_writeBytes rest (upd area off v) (off + 1)]

/-! ### GREASE filter (`exclude_tls_grease`, ssl_utils.c lines 402-418)

The C routine walks the input two bytes at a time (`ptr` advancing by 2 while
`ptr < len - 1`), which is embedded as structural recursion consuming the
input list two elements at a time; the list left over corresponds to
`input + ptr .. input + len`.  The capacity guard
`output->data <= output->size - 2` and the trailing-byte guard
`output->size - output->data > 0` are `size_t` comparisons and are embedded
with `usub`, keeping their wraparound behaviour for `size < 2`. -/

/-- The step `memcpy(output->area + output->data, input + ptr, 2); output->data += 2;`. -/
def writePair (out : Buffer) (a b : Nat) : Buffer :=
  { out with area := upd (upd out.area out.data a) (out.data + 1) b,
             data := out.data + 2 }

/-- The `while (ptr < len - 1)` loop of `exclude_tls_grease`: returns the
buffer and the unconsumed input suffix (`input + ptr` onwards). -/
def grease_loop : Buffer → List Nat → Buffer × List Nat
  | out, a :: b :: rest =>
    if a ≠ b ∨ a % 16 ≠ 10 then
      if out.data ≤ usub out.size 2 then
        grease_loop (writePair out a b) rest
      else
        (out, a :: b :: rest)
    else
      grease_loop out rest
  | out, l => (out, l)

/-- Embedding of `exclude_tls_grease(input, len, output)`; the input byte
array and its `len` are the list `input`. -/
def exclude_tls_grease (input : List Nat) (out : Buffer) : Buffer :=
  match grease_loop out input with
  | (out2, []) => out2
  | (out2, a :: _) =>
    if 0 < usub out2.size out2.data then
      { out2 with area := upd out2.area out2.data a, data := out2.data + 1 }
    else
      out2

/-- Functional description of the filter: drop the 2-byte GREASE codepoints
(`a = b` and low nibble `0xA`), keep the rest, preserve a trailing unpaired
byte. -/
def greaseFilter : List Nat → List Nat
  | a :: b :: rest =>
    if a = b ∧ a % 16 = 10 then greaseFilter rest else a :: b :: greaseFilter rest
  | l => l

/-- The pairs kept by the main loop. -/
def greasePairs : List Nat → List Nat
  | a :: b :: rest =>
    if a = b ∧ a % 16 = 10 then greasePairs rest else a :: b :: greasePairs rest
  | _ => []

/-- The input suffix left unconsumed by the main loop when it never breaks:
empty for even input length, the final byte otherwise. -/
def greaseRem : List Nat → List Nat
  | _ :: _ :: rest => greaseRem rest
  | l => l

theorem greaseFilter_eq_pairs_append_rem : ∀ l : List Nat,
    greaseFilter l = greasePairs l ++ greaseRem l
  | [] => rfl
  | [a] => rfl
  | a :: b :: rest => by
    by_cases h : a = b ∧ a % 16 = 10
    · obtain ⟨hab, hn⟩ := h
      subst hab
      simp [greaseFilter, greasePairs, greaseRem, hn,
        greaseFilter_eq_pairs_append_rem rest]
    · simp [greaseFilter, greasePairs, greaseRem, h,
        greaseFilter_eq_pairs_append_rem rest]

theorem greaseFilter_idem : ∀ l : List Nat,
    greaseFilter (greaseFilter l) = greaseFilter l
  | [] => rfl
  | [a] => rfl
  | a :: b :: rest => by
    by_cases h : a = b ∧ a % 16 = 10
    · obtain ⟨hab, hn⟩ := h
      subst hab
      simp [greaseFilter, hn, greaseFilter_idem rest]
    · simp [greaseFilter, h, greaseFilter_idem rest]

theorem greaseRem_length_le : ∀ l : List Nat, (greaseRem l).length ≤ 1
  | [] => by simp [greaseRem]
  | [a] => by simp [greaseRem]
  | _ :: _ :: rest => greaseRem_length_le rest

theorem usub_sub_of_le {a b : Nat} (hb : b ≤ a) (ha : a < W) : usub a b = a - b := by
  have hbW : b < W := Nat.lt_of_le_of_lt hb ha
  have hbm : b % W = b := Nat.mod_eq_of_lt hbW
  unfold usub
  rw [hbm]
  have h1 : a + (W - b) = W + (a - b) := by omega
  rw [h1, Nat.add_mod_left]
  exact Nat.mod_eq_of_lt (by omega)

theorem usub_pos_of_lt {a b : Nat} (h : b < a) (ha : a < W) : 0 < usub a b := by
  rw [usub_sub_of_le (Nat.le_of_lt h) ha]
  omega

theorem grease_loop_spec : ∀ (l : List Nat) (out : Buffer),
    out.data + (greasePairs l).length ≤ out.size → out.size < W →
    grease_loop out l =
      ({ out with area := writeBytes out.area out.data (greasePairs l),
                  data := out.data + (greasePairs l).length }, greaseRem l)
  | [], out, _, _ => by simp [grease_loop, greasePairs, greaseRem, writeBytes]
  | [a], out, _, _ => by simp [grease_loop, greasePairs, greaseRem, writeBytes]
  | a :: b :: rest, out, hcap, hW => by
    by_cases h : a = b ∧ a % 16 = 10
    · obtain ⟨hab, hn⟩ := h
      subst hab
      have hcap' : out.data + (greasePairs rest).length ≤ out.size := by
        simpa [greasePairs, hn] using hcap
      simp [grease_loop, greasePairs, greaseRem, hn,
        grease_loop_spec rest out hcap' hW]
    · have hgp : greasePairs (a :: b :: rest) = a :: b :: greasePairs rest := by
        simp [greasePairs, h]
      rw [hgp] at hcap
      simp only [List.length_cons] at hcap
      have hroom : out.data + 2 ≤ out.size := by omega
      have hcheck : out.data ≤ usub out.size 2 := by
        rw [usub_sub_of_le (by omega) hW]
        omega
      have hkeep : a ≠ b ∨ a % 16 ≠ 10 := by
        rcases Decidable.not_and_iff_or_not.mp h with h1 | h1
        · exact Or.inl h1
        · exact Or.inr h1
      have hcap2 : (writePair out a b).data + (greasePairs rest).length ≤
          (writePair out a b).size := by
        simp only [writePair]
        omega
      have ih := grease_loop_spec rest (writePair out a b) hcap2 hW
      simp only [grease_loop, if_pos hkeep, if_pos hcheck, ih]
      simp only [writePair, hgp, greaseRem, writeBytes, List.length_cons]
      have e1 : out.data + 2 = out.data + 1 + 1 := by omega
      rw [e1]
      have e2 : out.data + 1 + 1 + (greasePairs rest).length
          = out.data + ((greasePairs rest).length + 1 + 1) := by omega
      rw [e2]

theorem grease_loop_frame : ∀ (l : List Nat) (out : Buffer),
    (grease_loop out l).1.size = out.size ∧
    out.data ≤ (grease_loop out l).1.data ∧
    ∀ i, i < out.data → (grease_loop out l).1.area i = out.area i
  | [], out => by simp [grease_loop]
  | [a], out => by simp [grease_loop]
  | a :: b :: rest, out => by
    by_cases h : a ≠ b ∨ a % 16 ≠ 10
    · by_cases hc : out.data ≤ usub out.size 2
      · have ih := grease_loop_frame rest (writePair out a b)
        simp only [grease_loop, if_pos h, if_pos hc]
        refine ⟨by simpa [writePair] using ih.1, ?_, ?_⟩
        · have h2 : (writePair out a b).data = out.data + 2 := rfl
          omega
        · intro i hi
          have hi2 : i < (writePair out a b).data := by
            simp only [writePair]
            omega
          rw [ih.2.2 i hi2]
          have h1 : i ≠ out.data + 1 := by omega
          have h2 : i ≠ out.data := by omega
          simp [writePair, upd, h1, h2]
      · simp [grease_loop, if_pos h, if_neg hc]
    · simp only [grease_loop, if_neg h]
      exact grease_loop_frame rest out

/-- Master functional description of `exclude_tls_grease`: with room for the
whole filtered output, the call appends `greaseFilter input` at the current
length. -/
theorem exclude_tls_grease_spec (l : List Nat) (out : Buffer)
    (hcap : out.data + (greaseFilter l).length ≤ out.size) (hW : out.size < W) :
    exclude_tls_grease l out =
      { out with area := writeBytes out.area out.data (greaseFilter l),
                 data := out.data + (greaseFilter l).length } := by
  have hsplit := greaseFilter_eq_pairs_append_rem l
  have hcap' : out.data + (greasePairs l).length ≤ out.size := by
    have : (greasePairs l).length ≤ (greaseFilter l).length := by
      rw [hsplit]; simp
    omega
  have hloop := grease_loop_spec l out hcap' hW
  unfold exclude_tls_grease
  rw [hloop]
  rcases hrem : greaseRem l with _ | ⟨x, xs⟩
  · rw [hrem] at hsplit
    simp only [List.append_nil] at hsplit
    simp [hsplit]
  · have hxs : xs = [] := by
      have := greaseRem_length_le l
      rw [hrem] at this
      simp at this
      simp [this]
    subst hxs
    rw [hrem] at hsplit
    have hlen : (greaseFilter l).length = (greasePairs l).length + 1 := by
      rw [hsplit]; simp
    have hlt : out.data + (greasePairs l).length < out.size := by omega
    have hpos : 0 < usub out.size (out.data + (greasePairs l).length) :=
      usub_pos_of_lt hlt hW
    simp only [hpos, if_pos]
    rw [hsplit, writeBytes_append]
    simp only [writeBytes, List.length_append, List.length_cons, List.length_nil]
    congr 1

/-! ### Public-key algorithm summarizer (`cert_get_pkey_algo`, lines 22-62) -/

/-- The `EVP_PKEY_base_id` families distinguished by the code. -/
inductive KeyBase
  | rsa
  | ec
  | dsa
  | other
deriving DecidableEq

/-- The `TLSEXT_signature_*` codes the local `sig` variable ranges over. -/
inductive SigAlg
  | anonymous
  | rsa
  | ecdsa
  | dsa
deriving DecidableEq

/-- What `X509_get_pubkey` exposes: the base id and `EVP_PKEY_bits`. -/
structure PubKey where
  base : KeyBase
  bits : Nat

/-- The bytes of an ASCII string. -/
def strBytes (s : String) : List Nat := s.toList.map Char.toNat

/-- Modelled from the spec: haproxy's `chunk_printf` (declared outside `src/`)
renders the formatted text into the chunk; per the spec's contract for the
summarizer, a rendered text that does not fit the capacity (`vsnprintf`
result not below `size`, the terminating NUL needing one slot) is a
formatting failure reported by a negative return, the buffer's payload left
uncommitted; otherwise the text is stored and `data` set to its length. -/
def chunk_printf (out : Buffer) (s : String) : Int × Buffer :=
  if s.length < out.size then
    ((s.length : Int),
     { out with area := writeBytes out.area 0 (strBytes s), data := s.length })
  else
    (-1, out)

/-- Embedding of `cert_get_pkey_algo(crt, out)`; the certificate is reduced
to what the routine reads from it: `X509_get_pubkey`'s result. -/
def cert_get_pkey_algo (pkey : Option PubKey) (out : Buffer) : Int × Buffer :=
  let bits : Nat := match pkey with
    | some k => k.bits
    | none => 0
  let sig : SigAlg := match pkey with
    | some k =>
      match k.base with
      | KeyBase.rsa => SigAlg.rsa
      | KeyBase.ec => SigAlg.ecdsa
      | KeyBase.dsa => SigAlg.dsa
      | KeyBase.other => SigAlg.anonymous
    | none => SigAlg.anonymous
  match sig with
  | SigAlg.rsa =>
    match chunk_printf out ("RSA" ++ toString bits) with
    | (len, out2) => if len < 0 then (0, out2) else (1, out2)
  | SigAlg.ecdsa =>
    match chunk_printf out ("EC" ++ toString bits) with
    | (len, out2) => if len < 0 then (0, out2) else (1, out2)
  | SigAlg.dsa =>
    match chunk_printf out ("DSA" ++ toString bits) with
    | (len, out2) => if len < 0 then (0, out2) else (1, out2)
  | SigAlg.anonymous => (0, out)

/-- The label the routine renders for a recognized key family. -/
def pkeyLabel (k : PubKey) : String :=
  match k.base with
  | KeyBase.rsa => "RSA" ++ toString k.bits
  | KeyBase.ec => "EC" ++ toString k.bits
  | KeyBase.dsa => "DSA" ++ toString k.bits
  | KeyBase.other => ""

/-! ### Serial extractor (`ssl_sock_get_serial`, lines 68-82) -/

/-- What the routine reads from the certificate: `X509_get_serialNumber`,
`NULL` when absent. -/
structure SerialCert where
  serial : Option (List Nat)

/-- Embedding of `ssl_sock_get_serial(crt, out)`. -/
def ssl_sock_get_serial (crt : SerialCert) (out : Buffer) : Int × Buffer :=
  match crt.serial with
  | none => (0, out)
  | some s =>
    if out.size < s.length then
      (-1, out)
    else
      (1, { out with area := writeBytes out.area 0 s, data := s.length })

/-! ### DER encoder (`ssl_sock_crt2der`, lines 88-103) -/

/-- What the routine reads from the certificate: the sizing result
`i2d_X509(crt, NULL)` and the bytes a successful encode emits. -/
structure DerCert where
  der_len : Int
  der : List Nat

/-- Embedding of `ssl_sock_crt2der(crt, out)`.  Note the code's
`if (len <= 0) return 1;`. -/
def ssl_sock_crt2der (crt : DerCert) (out : Buffer) : Int × Buffer :=
  if crt.der_len ≤ 0 then
    (1, out)
  else if (out.size : Int) < crt.der_len then
    (-1, out)
  else
    (1, { out with area := writeBytes out.area 0 crt.der, data := crt.der_len.toNat })

/-! ### Validity time extractor (`ssl_sock_get_time`, lines 110-142) -/

def V_ASN1_UTCTIME : Int := 23

def V_ASN1_GENERALIZEDTIME : Int := 24

/-- An `ASN1_TIME`: its `type` tag and its raw byte payload (whose list
length is the struct's `length` field). -/
structure AsnTime where
  type : Int
  data : List Nat

/-- Reading `l[i]`, as the C code reads a byte it has bounds-checked. -/
def byteAt (l : List Nat) (i : Nat) : Nat := l.getD i 0

/-- Embedding of `ssl_sock_get_time(tm, out)`. -/
def ssl_sock_get_time (tm : AsnTime) (out : Buffer) : Int × Buffer :=
  if tm.type = V_ASN1_GENERALIZEDTIME then
    if tm.data.length < 12 then (0, out)
    else if byteAt tm.data 0 ≠ 0x32 ∨ byteAt tm.data 1 ≠ 0x30 then (0, out)
    else if out.size < tm.data.length - 2 then (-1, out)
    else
      (1, { out with area := writeBytes out.area 0 (tm.data.drop 2),
                     data := tm.data.length - 2 })
  else if tm.type = V_ASN1_UTCTIME then
    if tm.data.length < 10 then (0, out)
    else if 0x35 ≤ byteAt tm.data 0 then (0, out)
    else if out.size < tm.data.length then (-1, out)
    else
      (1, { out with area := writeBytes out.area 0 tm.data,
                     data := tm.data.length })
  else (0, out)

/-! ### Distinguished-name engine (lines 147-288)

An `X509_NAME` is embedded as the ordered list of its entries, each reduced
to what the code reads: the short name `s` the OBJ lookup produces (the
textual OID when no short name is registered) and the raw `ASN1_STRING`
value bytes. -/

structure NameEntry where
  sname : String
  value : List Nat
deriving DecidableEq

/-- ASCII lowercasing of a string's bytes, the comparison key of
`chunk_strcasecmp`. -/
def lowerBytes (s : String) : List Nat :=
  s.toList.map (fun c => if 65 ≤ c.toNat ∧ c.toNat ≤ 90 then c.toNat + 32 else c.toNat)

/-- Modelled from the spec: `chunk_strcasecmp` (declared outside `src/`)
compares the filter chunk against the entry name ASCII-case-insensitively;
this is its zero (equal) outcome. -/
def chunk_strcaseEq (a b : String) : Bool := lowerBytes a = lowerBytes b

/-- The `for (i = 0; i < name_count; i++)` loop of `ssl_sock_get_dn_entry`,
running over the entries in iteration order (the caller reverses the list
when `pos < 0`, matching `j = (name_count-1) - i`); `cur` is the running
match counter. -/
def dn_entry_loop (entry : String) (pos : Int) :
    Int → Buffer → List NameEntry → Int × Buffer
  | _, out, [] => (0, out)
  | cur, out, e :: rest =>
    if chunk_strcaseEq entry e.sname then
      let cur2 := if pos < 0 then cur - 1 else cur + 1
      if cur2 = pos then
        if out.size < e.value.length then
          (-1, out)
        else
          (1, { out with area := writeBytes out.area 0 e.value,
                         data := e.value.length })
      else
        dn_entry_loop entry pos cur2 out rest
    else
      dn_entry_loop entry pos cur out rest

/-- Embedding of `ssl_sock_get_dn_entry(a, entry, pos, out)`; note the
upfront `out->data = 0;`. -/
def ssl_sock_get_dn_entry (a : List NameEntry) (entry : String) (pos : Int)
    (out : Buffer) : Int × Buffer :=
  dn_entry_loop entry pos 0 { out with data := 0 }
    (if pos < 0 then a.reverse else a)

/-- Embedding of `ssl_sock_get_dn_formatted(a, format, out)`.  The external
BIO memory sink and `X509_NAME_print_ex` of the crypto library are
abstracted by `rendered`: `none` when `BIO_new` or the print call fails,
`some bs` for a successful rendering, of which `BIO_read` hands back at most
`out.size` bytes, returning a non-positive count when none are available. -/
def ssl_sock_get_dn_formatted (rendered : Option (List Nat)) (format : String)
    (out : Buffer) : Int × Buffer :=
  if format = "rfc2253" then
    match rendered with
    | none => (0, out)
    | some bs =>
      if min bs.length out.size = 0 then
        (0, out)
      else
        (1, { out with area := writeBytes out.area 0 (bs.take out.size),
                       data := min bs.length out.size })
  else
    (0, out)

/-- The `for` loop of `ssl_sock_get_dn_oneline`: `l` is the running total,
and the write pointer `p` always sits at `out.area + l`, so the offset of an
entry's bytes is the total before it.  Returns the buffer plus `true` when
the `return -1` path was taken. -/
def dn_oneline_loop : Buffer → Nat → List NameEntry → Buffer × Bool
  | out, _, [] => (out, false)
  | out, l, e :: rest =>
    if out.size < l + 1 + (strBytes e.sname).length + 1 + e.value.length then
      (out, true)
    else
      dn_oneline_loop
        { out with
          data := l + 1 + (strBytes e.sname).length + 1 + e.value.length,
          area := writeBytes out.area l (47 :: strBytes e.sname ++ 61 :: e.value) }
        (l + 1 + (strBytes e.sname).length + 1 + e.value.length) rest

/-- Embedding of `ssl_sock_get_dn_oneline(a, out)`. -/
def ssl_sock_get_dn_oneline (a : List NameEntry) (out : Buffer) : Int × Buffer :=
  match dn_oneline_loop { out with data := 0 } 0 a with
  | (out2, true) => (-1, out2)
  | (out2, false) => if out2.data = 0 then (0, out2) else (1, out2)

/-- Follows the spec's words for the oneline rendering: the forward-order
concatenation of `"/" + shortName + "=" + value` over all entries
(`47` is `'/'`, `61` is `'='`). -/
def onelineBytes : List NameEntry → List Nat
  | [] => []
  | e :: rest => (47 :: strBytes e.sname ++ 61 :: e.value) ++ onelineBytes rest

/-! ### Version string parser (`openssl_version_parser`, lines 339-399) -/

/-- Modelled from the C library's `strtol(p, &end, 10)` as the version
strings in scope exercise it: the maximal leading run of decimal digits is
converted (empty run giving 0) and `end` is left at the first non-digit. -/
def strtol10 (p : List Char) : Nat × List Char :=
  ((p.takeWhile (fun c => c.isDigit)).foldl (fun acc c => acc * 10 + (c.toNat - 48)) 0,
   p.dropWhile (fun c => c.isDigit))

/-- The `while (*p) patch += (*p & ~0x20) - 'A';` letter loop, in the
unsigned-int arithmetic of `patch` (mod `2^32`; the subtraction of `'A'`
wraps). -/
def letterSum : Nat → List Char → Nat
  | patch, [] => patch
  | patch, c :: rest =>
    letterSum ((patch + ((c.toNat &&& 0xDF) + 0x100000000 - 65)) % 0x100000000) rest

/-- The `MNNFFPPS` packing of line 393. -/
def pack_version (major minor fix patch status : Nat) : Nat :=
  ((major &&& 0xf) <<< 28) ||| ((minor &&& 0xff) <<< 20) |||
    ((fix &&& 0xff) <<< 12) ||| ((patch &&& 0xff) <<< 4) ||| (status &&& 0xf)

/-- Embedding of `openssl_version_parser(version)` (the name's `_parser`
suffix is shortened to `_parse`). -/
def openssl_version_parse (version : String) : Nat :=
  match version.toList with
  | [] => 0
  | p0 =>
    match strtol10 p0 with
    | (major, r1) =>
      if r1.head? ≠ some '.' ∨ 0xf < major then 0
      else
        match strtol10 (r1.drop 1) with
        | (minor, r2) =>
          if r2.head? ≠ some '.' ∨ 0xff < minor then 0
          else
            match strtol10 (r2.drop 1) with
            | (fix, r3) =>
              if 0xff < fix then 0
              else
                match r3 with
                | [] => pack_version major minor fix 0 0xf
                | '-' :: r4 =>
                  if r4.take 4 = ['b', 'e', 't', 'a'] then
                    match strtol10 (r4.drop 4) with
                    | (status, _) =>
                      if 14 < status then 0
                      else pack_version major minor fix 0 status
                  else
                    pack_version major minor fix 0 0
                | _ => pack_version major minor fix (letterSum 1 r3) 0xf

/-! ### Concrete fixtures used by the claims -/

/-- The distinguished name `[(CN,"a"),(O,"b"),(CN,"c")]` of the spec's worked
examples. -/
def dnABC : List NameEntry :=
  [NameEntry.mk "CN" (strBytes "a"), NameEntry.mk "O" (strBytes "b"),
   NameEntry.mk "CN" (strBytes "c")]

/-- An all-zero output buffer of capacity 16. -/
def buf16 : Buffer := Buffer.mk 16 0 (fun _ => 0)

/-- An all-zero output buffer of capacity 9. -/
def buf9 : Buffer := Buffer.mk 9 0 (fun _ => 0)

/-! ### The claims -/

/-- Claim C1 (code-bug evidence): the GREASE filter does write past a
0-capacity buffer.  On input bytes `[0x13, 0x01]` and an output buffer with
`size = 0`, `data = 0`, the `size_t` guard `data <= size - 2` underflows and
passes, so the call stores the two bytes at offsets 0 and 1 — both past the
capacity — and leaves `data = 2 > size = 0`, contradicting the claim that
`exclude_tls_grease` never writes past the capacity and never leaves
`length > capacity`. -/
theorem claim_C1_capacity_zero_overflow :
    (exclude_tls_grease [19, 1] (Buffer.mk 0 0 (fun _ => 0))).size = 0 ∧
    (exclude_tls_grease [19, 1] (Buffer.mk 0 0 (fun _ => 0))).data = 2 ∧
    (exclude_tls_grease [19, 1] (Buffer.mk 0 0 (fun _ => 0))).area 0 = 19 ∧
    (exclude_tls_grease [19, 1] (Buffer.mk 0 0 (fun _ => 0))).area 1 = 1 := by
  decide

/-- Claim C2 (code-bug evidence): when the DER sizing call reports a
non-positive length, `ssl_sock_crt2der` returns 1 — the Found/success flag —
with nothing written (`data` still 0), not the failure value 0 promised by
its own comment and by the claim. -/
theorem claim_C2_sizing_failure_returns_found :
    (ssl_sock_crt2der (DerCert.mk 0 []) buf16).1 = 1 ∧
    (ssl_sock_crt2der (DerCert.mk 0 []) buf16).2.data = 0 := by
  decide

/-- Claim C4 counterexample: on the DN `[(CN,"a"),(O,"b"),(CN,"c")]` the
locator applied to `("CN", 0)` does not return Found — the forward match
counter is pre-incremented, so the first match has counter 1 and `pos = 0`
is unreachable — refuting the claim that `("CN", 0)` yields Found `"a"`. -/
theorem claim_C4_counterexample :
    (ssl_sock_get_dn_entry dnABC "CN" 0 buf16).1 ≠ 1 := by
  decide

/-- Claim C4 (amended): the locator's ordinals are 1-based in the forward
direction: `("CN",1)` → `"a"`, `("CN",2)` → `"c"`, `("CN",-1)` → `"c"`,
`("CN",-2)` → `"a"`, while `("CN",0)` and `("CN",3)` → NotFound. -/
theorem claim_C4_amended :
    (ssl_sock_get_dn_entry dnABC "CN" 1 buf16).1 = 1 ∧
    readArea (ssl_sock_get_dn_entry dnABC "CN" 1 buf16).2 = strBytes "a" ∧
    (ssl_sock_get_dn_entry dnABC "CN" 2 buf16).1 = 1 ∧
    readArea (ssl_sock_get_dn_entry dnABC "CN" 2 buf16).2 = strBytes "c" ∧
    (ssl_sock_get_dn_entry dnABC "CN" (-1) buf16).1 = 1 ∧
    readArea (ssl_sock_get_dn_entry dnABC "CN" (-1) buf16).2 = strBytes "c" ∧
    (ssl_sock_get_dn_entry dnABC "CN" (-2) buf16).1 = 1 ∧
    readArea (ssl_sock_get_dn_entry dnABC "CN" (-2) buf16).2 = strBytes "a" ∧
    (ssl_sock_get_dn_entry dnABC "CN" 0 buf16).1 = 0 ∧
    (ssl_sock_get_dn_entry dnABC "CN" 3 buf16).1 = 0 := by
  decide

/-- Claim C5 counterexample: `"1.0.2u"` does not parse to the packed value
with patch 22: the letter `u` contributes `1 + ('U' - 'A') = 21`, not 22. -/
theorem claim_C5_counterexample :
    openssl_version_parse "1.0.2u" ≠ pack_version 1 0 2 22 0xf := by
  decide

/-- Claim C5 (amended): `"1.0.2u"` parses to the ordinal with major 1,
minor 0, fix 2, status 0xF and patch `1 + ('U' - 'A') = 21`, i.e.
`0x1000215F` as in the source's own table, under the layout
`major:4 | minor:8 | fix:8 | patch:8 | status:4` at bit positions
28, 20, 12, 4, 0; and `"3.0.0-beta2"` yields status 2, patch 0, fix 0. -/
theorem claim_C5_amended :
    openssl_version_parse "1.0.2u" = pack_version 1 0 2 21 0xf ∧
    pack_version 1 0 2 21 0xf = 0x1000215F ∧
    openssl_version_parse "3.0.0-beta2" = pack_version 3 0 0 0 2 ∧
    pack_version 3 0 0 0 2 = 0x30000002 := by
  decide

/-- Claim C6 counterexample: the serial extractor on a certificate without a
serial number returns NotFound but leaves the buffer length at its previous
value 5 — it is not reset to 0 as the claim states. -/
theorem claim_C6_counterexample :
    (ssl_sock_get_serial (SerialCert.mk none) (Buffer.mk 8 5 (fun _ => 0))).1 = 0 ∧
    (ssl_sock_get_serial (SerialCert.mk none) (Buffer.mk 8 5 (fun _ => 0))).2.data ≠ 0 := by
  decide

/-- Claim C6 (amended): on the NotFound outcome, the serial extractor and the
RFC2253 formatter leave the output buffer — its length included — exactly as
it was, rather than resetting the length to 0. -/
theorem claim_C6_amended :
    (∀ (crt : SerialCert) (out : Buffer), crt.serial = none →
      ssl_sock_get_serial crt out = (0, out)) ∧
    (∀ (rendered : Option (List Nat)) (format : String) (out : Buffer),
      (ssl_sock_get_dn_formatted rendered format out).1 = 0 →
      (ssl_sock_get_dn_formatted rendered format out).2 = out) := by
  constructor
  · intro crt out h
    simp [ssl_sock_get_serial, h]
  · intro rendered format out h
    by_cases hf : format = "rfc2253"
    · rcases rendered with _ | bs
      · simp [ssl_sock_get_dn_formatted, hf]
      · by_cases hm : min bs.length out.size = 0
        · simp [ssl_sock_get_dn_formatted, hf, hm]
        · exfalso
          simp [ssl_sock_get_dn_formatted, hf, hm] at h
    · simp [ssl_sock_get_dn_formatted, hf]

/-- Claim C6 witness: concrete NotFound calls returning the buffer
untouched. -/
theorem claim_C6_witness :
    ssl_sock_get_serial (SerialCert.mk none) (Buffer.mk 8 5 (fun _ => 0))
      = (0, Buffer.mk 8 5 (fun _ => 0)) ∧
    (ssl_sock_get_dn_formatted none "rfc2253" (Buffer.mk 8 5 (fun _ => 0))).2
      = Buffer.mk 8 5 (fun _ => 0) :=
  ⟨claim_C6_amended.1 (SerialCert.mk none) (Buffer.mk 8 5 (fun _ => 0)) rfl,
   claim_C6_amended.2 none "rfc2253" (Buffer.mk 8 5 (fun _ => 0)) (by decide)⟩

theorem readArea_mk (out : Buffer) (l : List Nat) :
    readArea { out with area := writeBytes out.area 0 l, data := l.length } = l :=
  readFrom_writeBytes l out.area 0

theorem get_time_gen_found (tm : AsnTime) (out : Buffer)
    (ht : tm.type = V_ASN1_GENERALIZEDTIME) (hl : 12 ≤ tm.data.length)
    (h0 : byteAt tm.data 0 = 0x32) (h1 : byteAt tm.data 1 = 0x30)
    (hcap : tm.data.length - 2 ≤ out.size) :
    ssl_sock_get_time tm out =
      (1, { out with area := writeBytes out.area 0 (tm.data.drop 2),
                     data := tm.data.length - 2 }) := by
  unfold ssl_sock_get_time
  rw [if_pos ht, if_neg (by omega), if_neg (by simp [h0, h1]), if_neg (by omega)]

theorem get_time_gen_small (tm : AsnTime) (out : Buffer)
    (ht : tm.type = V_ASN1_GENERALIZEDTIME) (hl : 12 ≤ tm.data.length)
    (h0 : byteAt tm.data 0 = 0x32) (h1 : byteAt tm.data 1 = 0x30)
    (hcap : out.size < tm.data.length - 2) :
    ssl_sock_get_time tm out = (-1, out) := by
  unfold ssl_sock_get_time
  rw [if_pos ht, if_neg (by omega), if_neg (by simp [h0, h1]), if_pos hcap]

theorem get_time_utc_found (tm : AsnTime) (out : Buffer)
    (ht : tm.type = V_ASN1_UTCTIME) (hl : 10 ≤ tm.data.length)
    (h0 : byteAt tm.data 0 < 0x35) (hcap : tm.data.length ≤ out.size) :
    ssl_sock_get_time tm out =
      (1, { out with area := writeBytes out.area 0 tm.data,
                     data := tm.data.length }) := by
  have hne : tm.type ≠ V_ASN1_GENERALIZEDTIME := by
    rw [ht]
    decide
  unfold ssl_sock_get_time
  rw [if_neg hne, if_pos ht, if_neg (by omega), if_neg (by omega), if_neg (by omega)]

theorem get_time_utc_small (tm : AsnTime) (out : Buffer)
    (ht : tm.type = V_ASN1_UTCTIME) (hl : 10 ≤ tm.data.length)
    (h0 : byteAt tm.data 0 < 0x35) (hcap : out.size < tm.data.length) :
    ssl_sock_get_time tm out = (-1, out) := by
  have hne : tm.type ≠ V_ASN1_GENERALIZEDTIME := by
    rw [ht]
    decide
  unfold ssl_sock_get_time
  rw [if_neg hne, if_pos ht, if_neg (by omega), if_neg (by omega), if_pos hcap]

theorem get_time_notfound (tm : AsnTime) (out : Buffer)
    (hg : ¬(tm.type = V_ASN1_GENERALIZEDTIME ∧ 12 ≤ tm.data.length ∧
        byteAt tm.data 0 = 0x32 ∧ byteAt tm.data 1 = 0x30))
    (hu : ¬(tm.type = V_ASN1_UTCTIME ∧ 10 ≤ tm.data.length ∧
        byteAt tm.data 0 < 0x35)) :
    ssl_sock_get_time tm out = (0, out) := by
  unfold ssl_sock_get_time
  by_cases ht : tm.type = V_ASN1_GENERALIZEDTIME
  · rw [if_pos ht]
    by_cases hlen : tm.data.length < 12
    · rw [if_pos hlen]
    · rw [if_neg hlen]
      have hb : byteAt tm.data 0 ≠ 0x32 ∨ byteAt tm.data 1 ≠ 0x30 := by
        by_contra hc
        push_neg at hc
        exact hg ⟨ht, by omega, hc.1, hc.2⟩
      rw [if_pos hb]
  · rw [if_neg ht]
    by_cases ht2 : tm.type = V_ASN1_UTCTIME
    · rw [if_pos ht2]
      by_cases hlen : tm.data.length < 10
      · rw [if_pos hlen]
      · rw [if_neg hlen]
        have hb : 0x35 ≤ byteAt tm.data 0 := by
          by_contra hc
          push_neg at hc
          exact hu ⟨ht2, by omega, hc⟩
        rw [if_pos hb]
    · rw [if_neg ht2]

/-- Claim C7: for every `AsnTime`, `ssl_sock_get_time` returns Found copying
the payload minus its first 2 bytes when the tag is GeneralizedTime, the raw
length is at least 12 and the first two bytes are ASCII "20" (TooSmall when
the capacity is below `length - 2`); returns Found copying the payload
verbatim when the tag is UtcTime, the raw length is at least 10 and the
first byte is below ASCII '5' (TooSmall when the capacity is below the
length); and returns NotFound in every other case. -/
theorem claim_C7 (tm : AsnTime) (out : Buffer) :
    ((tm.type = V_ASN1_GENERALIZEDTIME ∧ 12 ≤ tm.data.length ∧
        byteAt tm.data 0 = 0x32 ∧ byteAt tm.data 1 = 0x30) →
      (tm.data.length - 2 ≤ out.size →
        (ssl_sock_get_time tm out).1 = 1 ∧
        (ssl_sock_get_time tm out).2.data = tm.data.length - 2 ∧
        readArea (ssl_sock_get_time tm out).2 = tm.data.drop 2) ∧
      (out.size < tm.data.length - 2 → ssl_sock_get_time tm out = (-1, out))) ∧
    ((tm.type = V_ASN1_UTCTIME ∧ 10 ≤ tm.data.length ∧ byteAt tm.data 0 < 0x35) →
      (tm.data.length ≤ out.size →
        (ssl_sock_get_time tm out).1 = 1 ∧
        (ssl_sock_get_time tm out).2.data = tm.data.length ∧
        readArea (ssl_sock_get_time tm out).2 = tm.data) ∧
      (out.size < tm.data.length → ssl_sock_get_time tm out = (-1, out))) ∧
    (¬(tm.type = V_ASN1_GENERALIZEDTIME ∧ 12 ≤ tm.data.length ∧
        byteAt tm.data 0 = 0x32 ∧ byteAt tm.data 1 = 0x30) →
     ¬(tm.type = V_ASN1_UTCTIME ∧ 10 ≤ tm.data.length ∧
        byteAt tm.data 0 < 0x35) →
      ssl_sock_get_time tm out = (0, out)) := by
  refine ⟨fun hg => ⟨fun hcap => ?_, fun hcap => ?_⟩,
          fun hu => ⟨fun hcap => ?_, fun hcap => ?_⟩,
          fun hg hu => get_time_notfound tm out hg hu⟩
  · obtain ⟨ht, hl, h0, h1⟩ := hg
    have hfound := get_time_gen_found tm out ht hl h0 h1 hcap
    rw [hfound]
    refine ⟨rfl, rfl, ?_⟩
    have hd : tm.data.length - 2 = (tm.data.drop 2).length :=
      (List.length_drop 2 tm.data).symm
    show readArea { out with area := writeBytes out.area 0 (tm.data.drop 2),
                             data := tm.data.length - 2 } = tm.data.drop 2
    rw [hd]
    exact readArea_mk out (tm.data.drop 2)
  · obtain ⟨ht, hl, h0, h1⟩ := hg
    exact get_time_gen_small tm out ht hl h0 h1 hcap
  · obtain ⟨ht, hl, h0⟩ := hu
    have hfound := get_time_utc_found tm out ht hl h0 hcap
    rw [hfound]
    refine ⟨rfl, rfl, ?_⟩
    show readArea { out with area := writeBytes out.area 0 tm.data,
                             data := tm.data.length } = tm.data
    exact readArea_mk out tm.data
  · obtain ⟨ht, hl, h0⟩ := hu
    exact get_time_utc_small tm out ht hl h0 hcap

/-- Claim C7 witness: a 21st-century GeneralizedTime is copied with its
first two bytes stripped, a too-small buffer on a UtcTime gives TooSmall,
and a wrong tag gives NotFound. -/
theorem claim_C7_witness :
    (ssl_sock_get_time (AsnTime.mk 24 (strBytes "20250101000000Z")) buf16).1 = 1 ∧
    readArea (ssl_sock_get_time (AsnTime.mk 24 (strBytes "20250101000000Z")) buf16).2
      = (strBytes "20250101000000Z").drop 2 ∧
    ssl_sock_get_time (AsnTime.mk 23 (strBytes "2501010000Z")) (Buffer.mk 4 0 (fun _ => 0))
      = (-1, Buffer.mk 4 0 (fun _ => 0)) ∧
    ssl_sock_get_time (AsnTime.mk 0 []) buf16 = (0, buf16) :=
  ⟨((claim_C7 (AsnTime.mk 24 (strBytes "20250101000000Z")) buf16).1
      (by decide)).1 (by decide) |>.1,
   ((claim_C7 (AsnTime.mk 24 (strBytes "20250101000000Z")) buf16).1
      (by decide)).1 (by decide) |>.2.2,
   ((claim_C7 (AsnTime.mk 23 (strBytes "2501010000Z")) (Buffer.mk 4 0 (fun _ => 0))).2.1
      (by decide)).2 (by decide),
   (claim_C7 (AsnTime.mk 0 []) buf16).2.2 (by decide) (by decide)⟩

/-- Claim C3 counterexample: an RSA key whose label "RSA2048" does not fit a
capacity-3 buffer makes `cert_get_pkey_algo` return 0 — the NotFound value —
not the TooSmall value -1 the claim states. -/
theorem claim_C3_counterexample :
    (cert_get_pkey_algo (some (PubKey.mk KeyBase.rsa 2048)) (Buffer.mk 3 0 (fun _ => 0))).1 = 0 ∧
    (cert_get_pkey_algo (some (PubKey.mk KeyBase.rsa 2048)) (Buffer.mk 3 0 (fun _ => 0))).1 ≠ -1 := by
  decide

/-- Claim C3 (amended): when the rendered label of an RSA, EC or DSA key
does not fit the output buffer, `cert_get_pkey_algo` returns the NotFound
outcome 0 — the same value as for an unknown or absent key — and the
function never returns the TooSmall value -1 on any input. -/
theorem printf_wrap_of_noroom (out : Buffer) (s : String) (h : out.size ≤ s.length) :
    (if (chunk_printf out s).1 < 0 then ((0 : Int), (chunk_printf out s).2)
     else ((1 : Int), (chunk_printf out s).2)) = (0, out) := by
  unfold chunk_printf
  rw [if_neg (Nat.not_lt.mpr h)]
  norm_num

theorem printf_wrap_ne_neg_one (r : Int × Buffer) :
    (if r.1 < 0 then ((0 : Int), r.2) else ((1 : Int), r.2)).1 ≠ -1 := by
  split <;> norm_num

theorem claim_C3_amended :
    (∀ (k : PubKey) (out : Buffer), k.base ≠ KeyBase.other →
      out.size ≤ (pkeyLabel k).length →
      cert_get_pkey_algo (some k) out = (0, out)) ∧
    (∀ (bits : Nat) (out : Buffer),
      cert_get_pkey_algo (some (PubKey.mk KeyBase.other bits)) out = (0, out)) ∧
    (∀ (out : Buffer), cert_get_pkey_algo none out = (0, out)) ∧
    (∀ (pkey : Option PubKey) (out : Buffer), (cert_get_pkey_algo pkey out).1 ≠ -1) := by
  refine ⟨?_, ?_, ?_, ?_⟩
  · intro k out hb hcap
    rcases k with ⟨base, bits⟩
    cases base
    · exact printf_wrap_of_noroom out ("RSA" ++ toString bits) hcap
    · exact printf_wrap_of_noroom out ("EC" ++ toString bits) hcap
    · exact printf_wrap_of_noroom out ("DSA" ++ toString bits) hcap
    · exact absurd rfl hb
  · intro bits out
    rfl
  · intro out
    rfl
  · intro pkey out
    rcases pkey with _ | ⟨base, bits⟩
    · norm_num [cert_get_pkey_algo]
    · cases base
      · exact printf_wrap_ne_neg_one (chunk_printf out ("RSA" ++ toString bits))
      · exact printf_wrap_ne_neg_one (chunk_printf out ("EC" ++ toString bits))
      · exact printf_wrap_ne_neg_one (chunk_printf out ("DSA" ++ toString bits))
      · norm_num [cert_get_pkey_algo]

/-- Claim C3 witness: the concrete RSA2048 label on a capacity-3 buffer
yields the NotFound outcome with the buffer untouched. -/
theorem claim_C3_witness :
    cert_get_pkey_algo (some (PubKey.mk KeyBase.rsa 2048)) (Buffer.mk 3 0 (fun _ => 0))
      = (0, Buffer.mk 3 0 (fun _ => 0)) ∧
    (cert_get_pkey_algo (some (PubKey.mk KeyBase.ec 256)) (Buffer.mk 16 0 (fun _ => 0))).1 ≠ -1 :=
  ⟨claim_C3_amended.1 (PubKey.mk KeyBase.rsa 2048) (Buffer.mk 3 0 (fun _ => 0))
      (by decide) (by decide),
   claim_C3_amended.2.2.2 (some (PubKey.mk KeyBase.ec 256)) (Buffer.mk 16 0 (fun _ => 0))⟩

theorem onelineBytes_cons (e : NameEntry) (rest : List NameEntry) :
    (onelineBytes (e :: rest)).length
      = (1 + (strBytes e.sname).length + 1 + e.value.length)
        + (onelineBytes rest).length := by
  simp [onelineBytes]
  omega

theorem dn_oneline_loop_fits : ∀ (a : List NameEntry) (out : Buffer) (l : Nat),
    out.data = l → l + (onelineBytes a).length ≤ out.size →
    dn_oneline_loop out l a =
      ({ out with data := l + (onelineBytes a).length,
                  area := writeBytes out.area l (onelineBytes a) }, false)
  | [], out, l, hd, _ => by
    simp [dn_oneline_loop, onelineBytes, writeBytes, ← hd]
  | e :: rest, out, l, hd, hcap => by
    have hlen := onelineBytes_cons e rest
    rw [hlen] at hcap
    have hguard : ¬(out.size < l + 1 + (strBytes e.sname).length + 1 + e.value.length) := by
      omega
    have hcap2 : (l + 1 + (strBytes e.sname).length + 1 + e.value.length)
        + (onelineBytes rest).length ≤ out.size := by
      omega
    have ih := dn_oneline_loop_fits rest
      { out with data := l + 1 + (strBytes e.sname).length + 1 + e.value.length,
                 area := writeBytes out.area l (47 :: strBytes e.sname ++ 61 :: e.value) }
      (l + 1 + (strBytes e.sname).length + 1 + e.value.length) rfl hcap2
    simp only [dn_oneline_loop, if_neg hguard]
    rw [ih]
    have hob : onelineBytes (e :: rest)
        = (47 :: strBytes e.sname ++ 61 :: e.value) ++ onelineBytes rest := rfl
    have heblen : (47 :: strBytes e.sname ++ 61 :: e.value).length
        = 1 + (strBytes e.sname).length + 1 + e.value.length := by
      simp
      omega
    rw [hob]
    conv_rhs => rw [writeBytes_append]
    have hlen2 : ((47 :: strBytes e.sname ++ 61 :: e.value) ++ onelineBytes rest).length
        = 1 + (strBytes e.sname).length + 1 + e.value.length
          + (onelineBytes rest).length := by
      simp
      omega
    rw [hlen2, heblen]
    have hdata : l + (1 + (strBytes e.sname).length + 1 + e.value.length
          + (onelineBytes rest).length)
        = l + 1 + (strBytes e.sname).length + 1 + e.value.length
          + (onelineBytes rest).length := by
      omega
    have hoff : l + (1 + (strBytes e.sname).length + 1 + e.value.length)
        = l + 1 + (strBytes e.sname).length + 1 + e.value.length := by
      omega
    rw [hdata, hoff]

theorem dn_oneline_loop_small : ∀ (a : List NameEntry) (out : Buffer) (l : Nat),
    out.data = l → l ≤ out.size → out.size < l + (onelineBytes a).length →
    ∃ k, k < a.length ∧
      dn_oneline_loop out l a
        = ({ out with data := l + (onelineBytes (a.take k)).length,
                      area := writeBytes out.area l (onelineBytes (a.take k)) }, true) ∧
      l + (onelineBytes (a.take k)).length ≤ out.size ∧
      out.size < l + (onelineBytes (a.take (k + 1))).length
  | [], out, l, hd, hle, hlt => by
    exfalso
    simp [onelineBytes] at hlt
    omega
  | e :: rest, out, l, hd, hle, hlt => by
    have hlen := onelineBytes_cons e rest
    have heblen : (47 :: strBytes e.sname ++ 61 :: e.value).length
        = 1 + (strBytes e.sname).length + 1 + e.value.length := by
      simp
      omega
    by_cases hguard : out.size < l + 1 + (strBytes e.sname).length + 1 + e.value.length
    · refine ⟨0, by simp, ?_, ?_, ?_⟩
      · simp only [dn_oneline_loop, if_pos hguard, List.take_zero, onelineBytes,
          writeBytes, Nat.add_zero, List.length_nil]
        rw [← hd]
      · simp [onelineBytes]
        omega
      · have h1 : (onelineBytes (List.take 1 (e :: rest))).length
            = 1 + (strBytes e.sname).length + 1 + e.value.length := by
          simp [onelineBytes]
          omega
        rw [h1]
        omega
    · have hle2 : l + 1 + (strBytes e.sname).length + 1 + e.value.length ≤ out.size := by
        omega
      have hlt2 : out.size < (l + 1 + (strBytes e.sname).length + 1 + e.value.length)
          + (onelineBytes rest).length := by
        rw [hlen] at hlt
        omega
      have hrec := dn_oneline_loop_small rest
        { out with data := l + 1 + (strBytes e.sname).length + 1 + e.value.length,
                   area := writeBytes out.area l (47 :: strBytes e.sname ++ 61 :: e.value) }
        (l + 1 + (strBytes e.sname).length + 1 + e.value.length) rfl hle2 hlt2
      obtain ⟨k, hk, heq, hc1, hc2⟩ := hrec
      dsimp only at hc1 hc2
      refine ⟨k + 1, by simpa using hk, ?_, ?_, ?_⟩
      · simp only [dn_oneline_loop, if_neg hguard]
        rw [heq]
        have htake : (e :: rest).take (k + 1) = e :: rest.take k := rfl
        have hob : onelineBytes (e :: rest.take k)
            = (47 :: strBytes e.sname ++ 61 :: e.value) ++ onelineBytes (rest.take k) := rfl
        rw [htake, hob]
        conv_rhs => rw [writeBytes_append]
        have hlen2 : ((47 :: strBytes e.sname ++ 61 :: e.value)
              ++ onelineBytes (rest.take k)).length
            = 1 + (strBytes e.sname).length + 1 + e.value.length
              + (onelineBytes (rest.take k)).length := by
          simp
          omega
        rw [hlen2, heblen]
        have hdata : l + (1 + (strBytes e.sname).length + 1 + e.value.length
              + (onelineBytes (rest.take k)).length)
            = l + 1 + (strBytes e.sname).length + 1 + e.value.length
              + (onelineBytes (rest.take k)).length := by
          omega
        have hoff : l + (1 + (strBytes e.sname).length + 1 + e.value.length)
            = l + 1 + (strBytes e.sname).length + 1 + e.value.length := by
          omega
        rw [hdata, hoff]
      · have htake : (e :: rest).take (k + 1) = e :: rest.take k := rfl
        rw [htake, onelineBytes_cons]
        omega
      · have htake : (e :: rest).take (k + 1 + 1) = e :: rest.take (k + 1) := rfl
        rw [htake, onelineBytes_cons]
        omega

/-- Claim C8: the oneline formatter writes the forward-order concatenation
of `"/" + shortName + "=" + rawValue` over the entries; on the DN
`[(CN,"a"),(O,"b"),(CN,"c")]` with sufficient capacity it yields exactly
`"/CN=a/O=b/CN=c"` and Found; an empty DN yields NotFound with length 0;
and when an entry does not fit it returns TooSmall with the length equal to
the total after the last entry that fit completely. -/
theorem claim_C8 :
    ((ssl_sock_get_dn_oneline dnABC (Buffer.mk 32 0 (fun _ => 0))).1 = 1 ∧
     readArea (ssl_sock_get_dn_oneline dnABC (Buffer.mk 32 0 (fun _ => 0))).2
       = strBytes "/CN=a/O=b/CN=c") ∧
    (∀ (a : List NameEntry) (out : Buffer), (onelineBytes a).length ≤ out.size →
      ssl_sock_get_dn_oneline a out
        = ((if a = [] then 0 else 1),
           { out with data := (onelineBytes a).length,
                      area := writeBytes out.area 0 (onelineBytes a) }) ∧
      readArea (ssl_sock_get_dn_oneline a out).2 = onelineBytes a) ∧
    (∀ (a : List NameEntry) (out : Buffer), out.size < (onelineBytes a).length →
      ∃ k, k < a.length ∧
        (ssl_sock_get_dn_oneline a out).1 = -1 ∧
        (ssl_sock_get_dn_oneline a out).2.data = (onelineBytes (a.take k)).length ∧
        (onelineBytes (a.take k)).length ≤ out.size ∧
        out.size < (onelineBytes (a.take (k + 1))).length) := by
  refine ⟨by decide, ?_, ?_⟩
  · intro a out hcap
    have hfits := dn_oneline_loop_fits a { out with data := 0 } 0 rfl (by simpa using hcap)
    have hres : ssl_sock_get_dn_oneline a out
        = ((if a = [] then 0 else 1),
           { out with data := (onelineBytes a).length,
                      area := writeBytes out.area 0 (onelineBytes a) }) := by
      unfold ssl_sock_get_dn_oneline
      rw [hfits]
      dsimp only
      rcases a with _ | ⟨e, rest⟩
      · simp [onelineBytes, writeBytes]
      · have hpos : 0 < (onelineBytes (e :: rest)).length := by
          rw [onelineBytes_cons]
          omega
        rw [if_neg (by omega : ¬(0 + (onelineBytes (e :: rest)).length = 0)),
          if_neg (by simp : ¬((e :: rest) = ([] : List NameEntry)))]
        simp
    refine ⟨hres, ?_⟩
    rw [hres]
    exact readArea_mk out (onelineBytes a)
  · intro a out hcap
    have hsmall := dn_oneline_loop_small a { out with data := 0 } 0 rfl
      (Nat.zero_le _) (by simpa using hcap)
    obtain ⟨k, hk, heq, hc1, hc2⟩ := hsmall
    refine ⟨k, hk, ?_, ?_, by simpa using hc1, by simpa using hc2⟩
    · unfold ssl_sock_get_dn_oneline
      rw [heq]
    · unfold ssl_sock_get_dn_oneline
      rw [heq]
      dsimp only
      omega

/-- Claim C8 witness: the worked DN fully fits a capacity-16 buffer, and on
a capacity-9 buffer the formatter stops at a fence post. -/
theorem claim_C8_witness :
    readArea (ssl_sock_get_dn_oneline dnABC buf16).2 = onelineBytes dnABC ∧
    ∃ k, k < dnABC.length ∧
      (ssl_sock_get_dn_oneline dnABC buf9).1 = -1 ∧
      (ssl_sock_get_dn_oneline dnABC buf9).2.data = (onelineBytes (dnABC.take k)).length ∧
      (onelineBytes (dnABC.take k)).length ≤ buf9.size ∧
      buf9.size < (onelineBytes (dnABC.take (k + 1))).length :=
  ⟨(claim_C8.2.1 dnABC buf16 (by decide)).2,
   claim_C8.2.2 dnABC buf9 (by decide)⟩

/-- Claim C9: the GREASE filter is a fixed point on its own output: if a run
into an initially empty buffer of sufficient capacity produces the byte
sequence `S`, a second run on `S` into an initially empty buffer of capacity
at least `S.length` reproduces `S` unchanged. -/
theorem claim_C9 (l : List Nat) (out1 out2 : Buffer)
    (h1 : out1.data = 0) (h2 : (greaseFilter l).length ≤ out1.size)
    (h3 : out1.size < W) (h4 : out2.data = 0)
    (h5 : (readArea (exclude_tls_grease l out1)).length ≤ out2.size)
    (h6 : out2.size < W) :
    readArea (exclude_tls_grease (readArea (exclude_tls_grease l out1)) out2)
      = readArea (exclude_tls_grease l out1) := by
  have hS : readArea (exclude_tls_grease l out1) = greaseFilter l := by
    rw [exclude_tls_grease_spec l out1 (by omega) h3]
    unfold readArea
    simp only [h1, Nat.zero_add]
    exact readFrom_writeBytes (greaseFilter l) out1.area 0
  rw [hS] at h5 ⊢
  have hcap2 : out2.data + (greaseFilter (greaseFilter l)).length ≤ out2.size := by
    rw [greaseFilter_idem l]
    omega
  rw [exclude_tls_grease_spec (greaseFilter l) out2 hcap2 h6]
  unfold readArea
  simp only [h4, Nat.zero_add]
  rw [readFrom_writeBytes (greaseFilter (greaseFilter l)) out2.area 0]
  exact greaseFilter_idem l

/-- Claim C9 witness: the spec's worked example
`[0x0A,0x0A, 0x13,0x01, 0x1A,0x1A]` filters to `[0x13,0x01]`, and filtering
that output again reproduces it. -/
theorem claim_C9_witness :
    readArea (exclude_tls_grease
        (readArea (exclude_tls_grease [10, 10, 19, 1, 26, 26] (Buffer.mk 8 0 (fun _ => 0))))
        (Buffer.mk 2 0 (fun _ => 0)))
      = readArea (exclude_tls_grease [10, 10, 19, 1, 26, 26] (Buffer.mk 8 0 (fun _ => 0))) :=
  claim_C9 [10, 10, 19, 1, 26, 26] (Buffer.mk 8 0 (fun _ => 0)) (Buffer.mk 2 0 (fun _ => 0))
    rfl (by decide) (by decide) rfl (by decide) (by decide)

/-- Claim C10: `exclude_tls_grease` appends to the output buffer: the
capacity is unchanged, the length never decreases, and every byte stored
below the initial length is left untouched, so successive calls on the same
buffer accumulate their filtered outputs. -/
theorem claim_C10 (input : List Nat) (out : Buffer) :
    (exclude_tls_grease input out).size = out.size ∧
    out.data ≤ (exclude_tls_grease input out).data ∧
    ∀ i, i < out.data → (exclude_tls_grease input out).area i = out.area i := by
  have hf := grease_loop_frame input out
  unfold exclude_tls_grease
  rcases hl : grease_loop out input with ⟨out2, rem⟩
  rw [hl] at hf
  dsimp only at hf
  rcases rem with _ | ⟨a, rest⟩
  · exact hf
  · by_cases hc : 0 < usub out2.size out2.data
    · simp only [if_pos hc]
      refine ⟨hf.1, ?_, ?_⟩
      · show out.data ≤ out2.data + 1
        have := hf.2.1
        omega
      · intro i hi
        show upd out2.area out2.data a i = out.area i
        have hne : i ≠ out2.data := by
          have := hf.2.1
          omega
        unfold upd
        rw [if_neg hne]
        exact hf.2.2 i hi
    · simp only [if_neg hc]
      exact hf

/-- Claim C10 witness: a concrete second call on a partially filled buffer
keeps the capacity, grows the length and preserves the byte below the
initial length. -/
theorem claim_C10_witness :
    (exclude_tls_grease [19, 1] (Buffer.mk 4 2 (fun _ => 7))).size = 4 ∧
    2 ≤ (exclude_tls_grease [19, 1] (Buffer.mk 4 2 (fun _ => 7))).data ∧
    (exclude_tls_grease [19, 1] (Buffer.mk 4 2 (fun _ => 7))).area 1 = 7 :=
  ⟨(claim_C10 [19, 1] (Buffer.mk 4 2 (fun _ => 7))).1,
   (claim_C10 [19, 1] (Buffer.mk 4 2 (fun _ => 7))).2.1,
   (claim_C10 [19, 1] (Buffer.mk 4 2 (fun _ => 7))).2.2 1 (by decide)⟩

end SslUtils
